import Mathlib

/-!
# Verification of the `vrl-web` resolution pipeline

Shallow embedding of `src/vrl-web-server-warp/src/resolve.rs`: the `Input` /
`Outcome` data model, the LRU compilation cache (`lru::LruCache` as used by
the `CACHE` static, capacity 400), and the `resolve` orchestrator.  The VRL
compiler (`vrl::compile`), the diagnostic formatter (`Formatter`), the time
zone parser (`TimeZone::parse`) and the runtime (`Runtime::resolve`) are
external crates; they are modelled as parameters of an environment record,
per their call signatures in the source.
-/

set_option autoImplicit false

namespace VrlWeb

/-- The document model (`::value::Value`): a recursively structured
object/array/scalar tree.  Only the structure matters for this development. -/
inductive Value
  | null
  | bool (b : Bool)
  | int (n : Int)
  | str (s : String)
  | arr (elems : List Value)
  | obj (fields : List (String × Value))

/-- `value!({})`: the empty object document used when `input.event` is absent
(line 52 of resolve.rs). -/
def emptyDocument : Value := Value.obj []

/-- `::value::Secrets`: an auxiliary key/value store created fresh per call. -/
def Secrets := List (String × String)

/-- `Secrets::new()` (line 107 of resolve.rs). -/
def Secrets.new : Secrets := []

/-- `vector_common::TimeZone`: either the machine-local zone or a named zone. -/
inductive TimeZone
  | local
  | named (name : String)
  deriving DecidableEq, Repr

/-- The request model (`struct Input`, lines 30-34 of resolve.rs). -/
structure Input where
  program : String
  event : Option Value
  tz : Option String

/-- The result model (`enum Outcome`, lines 38-42 of resolve.rs). -/
inductive Outcome
  | success (output : Value) (result : Value)
  | error (msg : String)

/-! ## The LRU cache

`lru::LruCache<String, Result<Program, String>>` modelled as an association
list ordered by recency (most recently used first) plus a capacity.
`get` promotes a hit to the front; `put` inserts/updates at the front and,
when the length exceeds the capacity, evicts from the back (the
least-recently-used end). -/

section Lru

variable {K : Type} [DecidableEq K] {V : Type}

/-- Find the value for key `k` in a recency list (no promotion). -/
def lookupEntry (k : K) : List (K × V) → Option V
  | [] => none
  | (k', v) :: rest => if k' = k then some v else lookupEntry k rest

/-- Remove every entry with key `k` from a recency list. -/
def removeKey (k : K) : List (K × V) → List (K × V)
  | [] => []
  | (k', v) :: rest =>
      if k' = k then removeKey k rest else (k', v) :: removeKey k rest

@[simp] theorem lookupEntry_nil (k : K) : lookupEntry (V := V) k [] = none := rfl

@[simp] theorem lookupEntry_cons (k k' : K) (v : V) (rest : List (K × V)) :
    lookupEntry k ((k', v) :: rest)
      = if k' = k then some v else lookupEntry k rest := rfl

@[simp] theorem removeKey_nil (k : K) : removeKey (V := V) k [] = [] := rfl

@[simp] theorem removeKey_cons (k k' : K) (v : V) (rest : List (K × V)) :
    removeKey k ((k', v) :: rest)
      = if k' = k then removeKey k rest else (k', v) :: removeKey k rest := rfl

/-- An `lru::LruCache`: recency-ordered entries plus a fixed capacity. -/
structure Lru (K V : Type) where
  entries : List (K × V)
  cap : Nat

/-- The keys of a cache, most recently used first. -/
def Lru.keys (c : Lru K V) : List K := c.entries.map Prod.fst

/-- `LruCache::get`: on a hit, return the stored value and move the entry to
the most-recently-used position; on a miss, leave the cache unchanged. -/
def Lru.get (c : Lru K V) (k : K) : Option V × Lru K V :=
  match lookupEntry k c.entries with
  | none => (none, c)
  | some v => (some v, ⟨(k, v) :: removeKey k c.entries, c.cap⟩)

/-- `LruCache::put`: insert or update `k` at the most-recently-used position;
if the length then exceeds the capacity, evict from the
least-recently-used end. -/
def Lru.put (c : Lru K V) (k : K) (v : V) : Lru K V :=
  let entries := (k, v) :: removeKey k c.entries
  if c.cap < entries.length then ⟨entries.take c.cap, c.cap⟩
  else ⟨entries, c.cap⟩

/-- Pure membership query used only in specifications (not by the code). -/
def Lru.find? (c : Lru K V) (k : K) : Option V := lookupEntry k c.entries

/-- The capacity of the `CACHE` static
(`LruCache::new(std::num::NonZeroUsize::new(400).unwrap())`, line 48). -/
def cacheCapacity : Nat := 400

/-- The `CACHE` static at process start: empty, capacity 400. -/
def initialCache (V : Type) : Lru String V := ⟨[], cacheCapacity⟩

/-- The `CACHE` static at process start, at its value type
`Result<Program, String>`. -/
def emptyCache (P : Type) : Lru String (Except String P) := initialCache (Except String P)

variable (k k' : K) (v : V) (l : List (K × V))

theorem removeKey_eq_filter :
    removeKey k l = l.filter (fun p => p.1 ≠ k) := by
  induction l with
  | nil => rfl
  | cons p rest ih =>
    obtain ⟨k₁, v₁⟩ := p
    by_cases h : k₁ = k
    · simp [h, ih, List.filter_cons]
    · simp [h, ih, List.filter_cons]

theorem mem_removeKey {k k' : K} {v : V} {l : List (K × V)} :
    (k', v) ∈ removeKey k l ↔ (k', v) ∈ l ∧ k' ≠ k := by
  rw [removeKey_eq_filter]
  simp [List.mem_filter]

theorem length_removeKey_le : (removeKey k l).length ≤ l.length := by
  rw [removeKey_eq_filter]
  exact List.length_filter_le _ _

theorem removeKey_sublist : (removeKey k l).Sublist l := by
  rw [removeKey_eq_filter]
  exact List.filter_sublist l

theorem nodup_removeKey (h : (l.map Prod.fst).Nodup) :
    ((removeKey k l).map Prod.fst).Nodup :=
  h.sublist ((removeKey_sublist k l).map Prod.fst)

theorem removeKey_keys :
    (removeKey k l).map Prod.fst = (l.map Prod.fst).filter (fun x => x ≠ k) := by
  induction l with
  | nil => rfl
  | cons q rest ih =>
    obtain ⟨k₁, v₁⟩ := q
    by_cases h : k₁ = k
    · simp [h, ih, List.filter_cons]
    · simp [h, ih, List.filter_cons]

theorem not_mem_map_fst_removeKey :
    k ∉ (removeKey k l).map Prod.fst := by
  rw [removeKey_eq_filter]
  intro hm
  rcases List.mem_map.mp hm with ⟨p, hp, hpk⟩
  have := List.of_mem_filter hp
  simp [hpk] at this

theorem lookupEntry_eq_none_iff :
    lookupEntry k l = none ↔ k ∉ l.map Prod.fst := by
  induction l with
  | nil => simp
  | cons p rest ih =>
    obtain ⟨k₁, v₁⟩ := p
    by_cases h : k₁ = k
    · subst h
      simp
    · rw [lookupEntry_cons, if_neg h, ih]
      simp [Ne.symm h]

theorem lookupEntry_isSome_iff :
    (lookupEntry k l).isSome ↔ k ∈ l.map Prod.fst := by
  rcases hl : lookupEntry k l with _ | v
  · simp [(lookupEntry_eq_none_iff k l).mp hl]
  · simp only [Option.isSome_some, true_iff]
    by_contra hm
    rw [← lookupEntry_eq_none_iff k l] at hm
    rw [hl] at hm
    cases hm

theorem removeKey_eq_of_not_mem (h : k ∉ l.map Prod.fst) : removeKey k l = l := by
  induction l with
  | nil => rfl
  | cons p rest ih =>
    obtain ⟨k₁, v₁⟩ := p
    simp only [List.map_cons, List.mem_cons] at h
    push_neg at h
    rw [removeKey_cons, if_neg (Ne.symm h.1), ih h.2]

theorem length_removeKey_of_mem (h : (l.map Prod.fst).Nodup)
    (hm : k ∈ l.map Prod.fst) :
    (removeKey k l).length + 1 = l.length := by
  induction l with
  | nil => cases hm
  | cons p rest ih =>
    obtain ⟨k₁, v₁⟩ := p
    simp only [List.map_cons, List.nodup_cons] at h
    rcases List.mem_cons.mp hm with he | hm'
    · subst he
      rw [removeKey_cons, if_pos rfl,
        removeKey_eq_of_not_mem _ _ h.1]
      simp
    · have hne : k₁ ≠ k := by
        intro he; subst he; exact h.1 hm'
      rw [removeKey_cons, if_neg hne]
      simp only [List.length_cons]
      rw [ih h.2 hm']

end Lru

/-! ## The external VRL capabilities

`vrl::compile`, `Formatter`, `TimeZone::parse` and `Runtime::resolve` come
from external crates; the orchestrator treats them as opaque.  They are
modelled as fields of an environment record, typed after their use sites in
resolve.rs.  `P` is the compiled-artifact type (`vrl::Program`), `D` the
structured-diagnostics type. -/

/-- The value returned by a successful `vrl::compile`: the compiled program
plus any non-fatal warnings (used at lines 84-86 of resolve.rs). -/
structure CompilationResult (P : Type) where
  program : P
  warnings : List String

/-- The external capabilities used by `resolve`, with execution modelled as a
pure function of artifact, document, metadata, secrets and time zone (the
contract under which the orchestrator invokes `Runtime::resolve`). -/
structure Env (P D : Type) where
  compile : String → Except D (CompilationResult P)
  format : String → D → String
  parseTZ : String → Option TimeZone
  run : P → Value → Value → Secrets → TimeZone → Except String (Value × Value)

/-- The cache value type: `Result<Program, String>`. -/
abbrev Cache (P : Type) := Lru String (Except String P)

/-- Line 117: `Some("tt".to_string()).unwrap_or_default()` — a fixed string,
computed without reading `input.tz`. -/
def timeZoneString : String := (some "tt").getD ""

/-- Lines 119-122: parse the fixed string; on failure fall back to
`TimeZone::Local`. -/
def resolveTimeZone (parse : String → Option TimeZone) : TimeZone :=
  match parse timeZoneString with
  | some tz => tz
  | none => TimeZone.local

/-- Lines 57-103 of resolve.rs: look the program text up in the cache; on a
miss invoke the compiler, store the (positive or negative) result and re-read
it.  Returns the artifact-or-error, the new cache state, and how many times
the compiler was invoked; `none` models the `unreachable!()` panic at
line 93. -/
def lookupOrCompile {P D : Type} (compileF : String → Except D (CompilationResult P))
    (formatF : String → D → String) (program : String) (cache : Cache P) :
    Option (Except String P × Cache P × Nat) :=
  match cache.get program with
  | (some (Except.ok p), cache1) => some (Except.ok p, cache1, 0)
  | (some (Except.error e), cache1) => some (Except.error e, cache1, 0)
  | (none, cache1) =>
      match compileF program with
      | Except.ok result =>
          let cache2 := cache1.put program (Except.ok result.program)
          match cache2.get program with
          | (some (Except.ok p), cache3) => some (Except.ok p, cache3, 1)
          | (some (Except.error e), cache3) => some (Except.error e, cache3, 1)
          | (none, _) => none
      | Except.error d =>
          let msg := formatF program d
          some (Except.error msg, cache1.put program (Except.error msg), 1)

/-- The resolution orchestrator (`fn resolve`, lines 45-142 of resolve.rs).
Takes the cache state explicitly (the `CACHE` static) and returns the outcome
together with the new cache state and the number of compiler invocations;
`none` models the `unreachable!()` panic. -/
def resolve {P D : Type} (env : Env P D) (input : Input) (cache : Cache P) :
    Option (Outcome × Cache P × Nat) :=
  let doc := input.event.getD emptyDocument
  match lookupOrCompile env.compile env.format input.program cache with
  | none => none
  | some (Except.error e, cache1, n) => some (Outcome.error e, cache1, n)
  | some (Except.ok p, cache1, n) =>
      let metadata := emptyDocument
      let secrets := Secrets.new
      let tz := resolveTimeZone env.parseTZ
      match env.run p doc metadata secrets tz with
      | Except.ok (output, doc1) => some (Outcome.success output doc1, cache1, n)
      | Except.error err => some (Outcome.error err, cache1, n)

/-! ## Stateful execution context

`RUNTIME` (lines 18-20) is a thread-local `Runtime` built once per worker from
`state::Runtime::default()` and reused across calls.  To reason about that
reuse, this variant threads an explicit runtime-state type `S` through
execution. -/

/-- External capabilities with a stateful runtime: `runS` consumes and
returns the per-worker runtime state. -/
structure REnv (P D S : Type) where
  compile : String → Except D (CompilationResult P)
  format : String → D → String
  parseTZ : String → Option TimeZone
  initRuntime : S
  runS : S → P → Value → Value → Secrets → TimeZone → S × Except String (Value × Value)

/-- `resolve` with the per-worker runtime state threaded explicitly:
`RUNTIME.with(|r| ... r.borrow_mut() ...)` reads and writes the worker's
state (lines 124-131 of resolve.rs). -/
def resolveS {P D S : Type} (env : REnv P D S) (input : Input) (cache : Cache P)
    (s : S) : Option (Outcome × Cache P × Nat × S) :=
  let doc := input.event.getD emptyDocument
  match lookupOrCompile env.compile env.format input.program cache with
  | none => none
  | some (Except.error e, cache1, n) => some (Outcome.error e, cache1, n, s)
  | some (Except.ok p, cache1, n) =>
      let metadata := emptyDocument
      let secrets := Secrets.new
      let tz := resolveTimeZone env.parseTZ
      match env.runS s p doc metadata secrets tz with
      | (s1, Except.ok (output, doc1)) => some (Outcome.success output doc1, cache1, n, s1)
      | (s1, Except.error err) => some (Outcome.error err, cache1, n, s1)

/-! ## Lock-scope trace

`resolve` acquires the cache mutex at line 55 (`CACHE.lock().unwrap()`) and
the guard `cache_ref` is dropped only when the function returns — it is never
dropped earlier, and the compiled artifact is a borrow into the cache, so the
guard must outlive the execution phase.  `resolveTrace` records the sequence
of lock/cache/compiler/execution events of one call; every return path ends
with the guard drop (`lockRelease`), including the early returns and the
panicking `unreachable!()` branch (whose unwind also drops the guard). -/

/-- One observable event during a `resolve` call. -/
inductive Ev
  | lockAcquire
  | cacheGet
  | compilerInvoke
  | cachePut
  | execute
  | lockRelease
  deriving DecidableEq, Repr

/-- The event trace of one `resolve` call, path by path from the source.  The
`execute` event is the `RUNTIME.with` block (present whether execution
succeeds or fails); `lockRelease` is the drop of `cache_ref` at function
exit. -/
def resolveTrace {P D : Type} (env : Env P D) (input : Input) (cache : Cache P) :
    List Ev :=
  Ev.lockAcquire ::
    (match cache.get input.program with
     | (some (Except.ok _), _) => [Ev.cacheGet, Ev.execute, Ev.lockRelease]
     | (some (Except.error _), _) => [Ev.cacheGet, Ev.lockRelease]
     | (none, cache1) =>
         match env.compile input.program with
         | Except.ok result =>
             match (cache1.put input.program (Except.ok result.program)).get input.program with
             | (some (Except.ok _), _) =>
                 [Ev.cacheGet, Ev.compilerInvoke, Ev.cachePut, Ev.cacheGet,
                   Ev.execute, Ev.lockRelease]
             | (some (Except.error _), _) =>
                 [Ev.cacheGet, Ev.compilerInvoke, Ev.cachePut, Ev.cacheGet,
                   Ev.lockRelease]
             | (none, _) =>
                 [Ev.cacheGet, Ev.compilerInvoke, Ev.cachePut, Ev.cacheGet,
                   Ev.lockRelease]
         | Except.error _ =>
             [Ev.cacheGet, Ev.compilerInvoke, Ev.cachePut, Ev.lockRelease])

/-- The execution event occurs while the lock is held: some `execute` lies
strictly between a `lockAcquire` and a `lockRelease`. -/
def executionInsideLock (t : List Ev) : Prop :=
  ∃ i j k, i < j ∧ j < k ∧ t.get? i = some Ev.lockAcquire ∧
    t.get? j = some Ev.execute ∧ t.get? k = some Ev.lockRelease

/-! ## Support lemmas about the cache operations -/

section LruLemmas

variable {K : Type} [DecidableEq K] {V : Type}

theorem Lru.get_eq_none {c : Lru K V} {k : K}
    (h : lookupEntry k c.entries = none) : c.get k = (none, c) := by
  unfold Lru.get
  rw [h]

theorem Lru.get_eq_some {c : Lru K V} {k : K} {v : V}
    (h : lookupEntry k c.entries = some v) :
    c.get k = (some v, ⟨(k, v) :: removeKey k c.entries, c.cap⟩) := by
  unfold Lru.get
  rw [h]

theorem Lru.put_def (c : Lru K V) (k : K) (v : V) :
    c.put k v
      = if c.cap < ((k, v) :: removeKey k c.entries).length then
          ⟨((k, v) :: removeKey k c.entries).take c.cap, c.cap⟩
        else ⟨(k, v) :: removeKey k c.entries, c.cap⟩ := rfl

@[simp] theorem Lru.cap_get (c : Lru K V) (k : K) : (c.get k).2.cap = c.cap := by
  rcases h : lookupEntry k c.entries with _ | v
  · rw [Lru.get_eq_none h]
  · rw [Lru.get_eq_some h]

@[simp] theorem Lru.cap_put (c : Lru K V) (k : K) (v : V) :
    (c.put k v).cap = c.cap := by
  rw [Lru.put_def]
  split <;> rfl

/-- The entry just written by `put` is found by a subsequent lookup, as long
as the capacity is positive: the new entry sits at the most-recently-used
position and eviction only removes from the other end. -/
theorem lookupEntry_put_self (c : Lru K V) (k : K) (v : V) (hcap : 0 < c.cap) :
    lookupEntry k (c.put k v).entries = some v := by
  rw [Lru.put_def]
  split
  · obtain ⟨m, hm⟩ : ∃ m, c.cap = m + 1 := ⟨c.cap - 1, by omega⟩
    rw [hm, List.take_succ_cons, lookupEntry_cons, if_pos rfl]
  · rw [lookupEntry_cons, if_pos rfl]

theorem Lru.find?_put_self (c : Lru K V) (k : K) (v : V) (hcap : 0 < c.cap) :
    (c.put k v).find? k = some v :=
  lookupEntry_put_self c k v hcap

theorem lookupEntry_mem {k : K} {v : V} {l : List (K × V)}
    (h : lookupEntry k l = some v) : (k, v) ∈ l := by
  induction l with
  | nil => cases h
  | cons p rest ih =>
    obtain ⟨k₁, v₁⟩ := p
    by_cases he : k₁ = k
    · subst he
      rw [lookupEntry_cons, if_pos rfl] at h
      injection h with h
      subst h
      exact List.mem_cons_self _ _
    · rw [lookupEntry_cons, if_neg he] at h
      exact List.mem_cons_of_mem _ (ih h)

/-- Well-formedness of a cache state: no duplicate keys, and no more entries
than the capacity. -/
def Lru.Wf (c : Lru K V) : Prop :=
  c.keys.Nodup ∧ c.entries.length ≤ c.cap

theorem Lru.Wf.initial (V : Type) : (initialCache V).Wf := by
  constructor
  · exact List.nodup_nil
  · exact Nat.zero_le _

/-- `get` preserves well-formedness. -/
theorem Lru.Wf.get {c : Lru K V} (h : c.Wf) (k : K) : ((c.get k).2).Wf := by
  rcases hl : lookupEntry k c.entries with _ | v
  · rw [Lru.get_eq_none hl]
    exact h
  · rw [Lru.get_eq_some hl]
    have hmem : k ∈ c.entries.map Prod.fst := by
      rw [← lookupEntry_isSome_iff, hl]
      rfl
    constructor
    · simp only [Lru.keys, List.map_cons, List.nodup_cons]
      exact ⟨not_mem_map_fst_removeKey k c.entries, nodup_removeKey k c.entries h.1⟩
    · simp only [List.length_cons]
      rw [length_removeKey_of_mem k c.entries h.1 hmem]
      exact h.2

/-- `put` preserves well-formedness (unconditionally in the length bound:
eviction truncates to the capacity). -/
theorem Lru.Wf.put {c : Lru K V} (h : c.Wf) (k : K) (v : V) : (c.put k v).Wf := by
  have hnodup : (((k, v) :: removeKey k c.entries).map Prod.fst).Nodup := by
    simp only [List.map_cons, List.nodup_cons]
    exact ⟨not_mem_map_fst_removeKey k c.entries, nodup_removeKey k c.entries h.1⟩
  rw [Lru.put_def]
  split
  · constructor
    · exact (hnodup.sublist ((List.take_sublist _ _).map Prod.fst) : _)
    · simp only [List.length_take]
      omega
  · constructor
    · exact hnodup
    · dsimp only
      omega

end LruLemmas

/-! ## Support lemmas about `lookupOrCompile` and `resolve` -/

section PipelineLemmas

variable {P D : Type}

/-- The canonical cache entry for a program text: what one compiler
invocation stores — the artifact on success (line 82), the formatted
diagnostics on failure (lines 96-99). -/
def compiledEntry (compileF : String → Except D (CompilationResult P))
    (formatF : String → D → String) (program : String) : Except String P :=
  match compileF program with
  | Except.ok r => Except.ok r.program
  | Except.error d => Except.error (formatF program d)

/-- Every entry of the cache is the canonical result of compiling its key.
This holds of every reachable cache state, since `resolve` is the cache's
only writer. -/
def CacheConsistent (compileF : String → Except D (CompilationResult P))
    (formatF : String → D → String) (cache : Cache P) : Prop :=
  ∀ p ∈ cache.entries, p.2 = compiledEntry compileF formatF p.1

/-- The outcome of executing artifact `p` against document `doc` with fresh
metadata and secrets (lines 105-141 of resolve.rs). -/
def execOutcome (env : Env P D) (p : P) (doc : Value) : Outcome :=
  match env.run p doc emptyDocument Secrets.new (resolveTimeZone env.parseTZ) with
  | Except.ok (output, doc1) => Outcome.success output doc1
  | Except.error err => Outcome.error err

/-- The outcome determined by a cache entry: the stored error verbatim, or
the result of executing the stored artifact. -/
def entryOutcome (env : Env P D) (input : Input) (r : Except String P) : Outcome :=
  match r with
  | Except.error e => Outcome.error e
  | Except.ok p => execOutcome env p (input.event.getD emptyDocument)

/-- The outcome a fresh compilation of `input.program` would produce: execute
the canonical entry for the program text. -/
def canonicalOutcome (env : Env P D) (input : Input) : Outcome :=
  entryOutcome env input (compiledEntry env.compile env.format input.program)

variable {cf : String → Except D (CompilationResult P)} {ff : String → D → String}

theorem CacheConsistent.promote {cache : Cache P}
    (h : CacheConsistent cf ff cache) {k : String} {v : Except String P}
    (hl : lookupEntry k cache.entries = some v) :
    CacheConsistent cf ff ((cache.get k).2) := by
  rw [Lru.get_eq_some hl]
  intro p hp
  rcases List.mem_cons.mp hp with he | hm
  · subst he
    exact h _ (lookupEntry_mem hl)
  · exact h _ ((removeKey_sublist _ _).subset hm)

theorem CacheConsistent.putCanonical {cache : Cache P}
    (h : CacheConsistent cf ff cache) (k : String) :
    CacheConsistent cf ff (cache.put k (compiledEntry cf ff k)) := by
  intro p hp
  rw [Lru.put_def] at hp
  have hp' : p ∈ (k, compiledEntry cf ff k) :: removeKey k cache.entries := by
    split at hp
    · exact List.take_subset _ _ hp
    · exact hp
  rcases List.mem_cons.mp hp' with he | hm
  · subst he
    rfl
  · exact h _ ((removeKey_sublist _ _).subset hm)

/-- Lookup hit (lines 63-69 / the `Some` arm): the stored entry is returned
unchanged, the entry is promoted, and the compiler is not invoked. -/
theorem lookupOrCompile_hit (cf : String → Except D (CompilationResult P))
    (ff : String → D → String) {prog : String} {cache : Cache P}
    {v : Except String P} (h : cache.find? prog = some v) :
    lookupOrCompile cf ff prog cache
      = some (v, ⟨(prog, v) :: removeKey prog cache.entries, cache.cap⟩, 0) := by
  unfold lookupOrCompile
  rw [Lru.get_eq_some h]
  cases v <;> rfl

/-- Lookup miss with failing compilation (lines 95-100): the formatted
message is stored as a negative entry and returned; one compiler call. -/
theorem lookupOrCompile_miss_error (ff : String → D → String) {prog : String}
    {cache : Cache P} {d : D}
    (hmiss : cache.find? prog = none) (hc : cf prog = Except.error d) :
    lookupOrCompile cf ff prog cache
      = some (Except.error (ff prog d),
          cache.put prog (Except.error (ff prog d)), 1) := by
  unfold lookupOrCompile
  rw [Lru.get_eq_none hmiss]
  dsimp only
  rw [hc]

/-- Lookup miss with successful compilation (lines 70-94): the artifact is
stored, immediately re-read (promoting it), and returned; one compiler
call. -/
theorem lookupOrCompile_miss_ok {prog : String} {cache : Cache P}
    {r : CompilationResult P} (hmiss : cache.find? prog = none)
    (hc : cf prog = Except.ok r) (hcap : 0 < cache.cap) :
    lookupOrCompile cf ff prog cache
      = some (Except.ok r.program,
          ⟨(prog, Except.ok r.program) ::
             removeKey prog (cache.put prog (Except.ok r.program)).entries,
           cache.cap⟩, 1) := by
  unfold lookupOrCompile
  rw [Lru.get_eq_none hmiss]
  dsimp only
  rw [hc]
  dsimp only
  rw [Lru.get_eq_some (lookupEntry_put_self cache prog (Except.ok r.program) hcap)]
  rw [Lru.cap_put]

/-- The `unreachable!()` branch is never taken: with a positive capacity, the
just-inserted entry is always found by the re-lookup, so `lookupOrCompile`
never returns `none`. -/
theorem lookupOrCompile_ne_none {prog : String} {cache : Cache P}
    (hcap : 0 < cache.cap) :
    lookupOrCompile cf ff prog cache ≠ none := by
  rcases h : cache.find? prog with _ | v
  · rcases hc : cf prog with d | r
    · rw [lookupOrCompile_miss_error ff h hc]
      exact Option.some_ne_none _
    · rw [lookupOrCompile_miss_ok h hc hcap]
      exact Option.some_ne_none _
  · rw [lookupOrCompile_hit cf ff h]
    exact Option.some_ne_none _

/-- Master specification of the lookup/compile phase on a positive-capacity
cache: it never panics, and afterwards the cache maps the program text to the
returned entry; the capacity is unchanged and well-formedness is
preserved. -/
theorem lookupOrCompile_post {prog : String} {cache : Cache P}
    {r : Except String P} {c' : Cache P} {n : Nat}
    (hcap : 0 < cache.cap)
    (h : lookupOrCompile cf ff prog cache = some (r, c', n)) :
    c'.find? prog = some r ∧ c'.cap = cache.cap ∧ (cache.Wf → c'.Wf) := by
  rcases hm : cache.find? prog with _ | v
  · rcases hc : cf prog with d | cr
    · rw [lookupOrCompile_miss_error ff hm hc] at h
      injection h with h
      injection h with h1 h
      injection h with h2 h3
      subst h1; subst h2
      exact ⟨Lru.find?_put_self _ _ _ hcap, Lru.cap_put _ _ _,
        fun hwf => hwf.put _ _⟩
    · rw [lookupOrCompile_miss_ok hm hc hcap] at h
      injection h with h
      injection h with h1 h
      injection h with h2 h3
      subst h1; subst h2
      have hc' :
          (⟨(prog, Except.ok cr.program) ::
              removeKey prog (cache.put prog (Except.ok cr.program)).entries,
              cache.cap⟩ : Cache P)
            = ((cache.put prog (Except.ok cr.program)).get prog).2 := by
        rw [Lru.get_eq_some (lookupEntry_put_self cache prog _ hcap), Lru.cap_put]
      refine ⟨?_, rfl, ?_⟩
      · rw [Lru.find?]
        dsimp only
        rw [lookupEntry_cons, if_pos rfl]
      · intro hwf
        rw [hc']
        exact (hwf.put _ _).get _
  · rw [lookupOrCompile_hit cf ff hm] at h
    injection h with h
    injection h with h1 h
    injection h with h2 h3
    subst h1; subst h2
    have hc' : (⟨(prog, v) :: removeKey prog cache.entries, cache.cap⟩ : Cache P)
        = (cache.get prog).2 := by
      rw [Lru.get_eq_some hm]
    refine ⟨?_, rfl, ?_⟩
    · rw [Lru.find?]
      dsimp only
      rw [lookupEntry_cons, if_pos rfl]
    · intro hwf
      rw [hc']
      exact hwf.get _

/-- On a consistent positive-capacity cache, the lookup/compile phase returns
exactly the canonical entry for the program text, and consistency is
preserved. -/
theorem lookupOrCompile_consistent (prog : String) {cache : Cache P}
    (hcap : 0 < cache.cap) (hcons : CacheConsistent cf ff cache) :
    ∃ c' n, lookupOrCompile cf ff prog cache
        = some (compiledEntry cf ff prog, c', n)
      ∧ CacheConsistent cf ff c' := by
  rcases hm : cache.find? prog with _ | v
  · rcases hc : cf prog with d | cr
    · have hce : compiledEntry cf ff prog = Except.error (ff prog d) := by
        rw [compiledEntry, hc]
      have hput : CacheConsistent cf ff
          (cache.put prog (Except.error (ff prog d))) := by
        have h1 := hcons.putCanonical prog
        rwa [hce] at h1
      rw [hce]
      exact ⟨_, _, lookupOrCompile_miss_error ff hm hc, hput⟩
    · have hce : compiledEntry cf ff prog = Except.ok cr.program := by
        rw [compiledEntry, hc]
      have h1 : CacheConsistent cf ff (cache.put prog (Except.ok cr.program)) := by
        have h0 := hcons.putCanonical prog
        rwa [hce] at h0
      have h2 := h1.promote (lookupEntry_put_self cache prog _ hcap)
      rw [Lru.get_eq_some (lookupEntry_put_self cache prog _ hcap)] at h2
      rw [Lru.cap_put] at h2
      rw [hce]
      exact ⟨_, _, lookupOrCompile_miss_ok hm hc hcap, h2⟩
  · have hv : v = compiledEntry cf ff prog := hcons _ (lookupEntry_mem hm)
    have h2 := hcons.promote hm
    rw [Lru.get_eq_some hm] at h2
    rw [← hv]
    exact ⟨_, _, lookupOrCompile_hit cf ff hm, h2⟩

/-- `resolve` in terms of the lookup/compile phase: the outcome is determined
by the returned entry, and the cache state and compile count pass through
unchanged (no cache writes after the phase). -/
theorem resolve_eq_of_lookup {env : Env P D} (input : Input) {cache : Cache P}
    {r : Except String P} {c' : Cache P} {n : Nat}
    (h : lookupOrCompile env.compile env.format input.program cache
      = some (r, c', n)) :
    resolve env input cache = some (entryOutcome env input r, c', n) := by
  cases r with
  | error e =>
      unfold resolve
      rw [h]
      rfl
  | ok p =>
      unfold resolve
      rw [h]
      rcases hr : env.run p (input.event.getD emptyDocument) emptyDocument
          Secrets.new (resolveTimeZone env.parseTZ) with err | ⟨out, doc1⟩
      · simp [entryOutcome, execOutcome, hr]
      · simp [entryOutcome, execOutcome, hr]

/-- Outcome of executing an artifact when the run succeeds. -/
theorem execOutcome_eq_ok {env : Env P D} {p : P} {doc out doc1 : Value}
    (hr : env.run p doc emptyDocument Secrets.new (resolveTimeZone env.parseTZ)
      = Except.ok (out, doc1)) :
    execOutcome env p doc = Outcome.success out doc1 := by
  unfold execOutcome
  rw [hr]

/-- Outcome of executing an artifact when the run fails. -/
theorem execOutcome_eq_error {env : Env P D} {p : P} {doc : Value} {err : String}
    (hr : env.run p doc emptyDocument Secrets.new (resolveTimeZone env.parseTZ)
      = Except.error err) :
    execOutcome env p doc = Outcome.error err := by
  unfold execOutcome
  rw [hr]

@[simp] theorem entryOutcome_error (env : Env P D) (input : Input) (e : String) :
    entryOutcome env input (Except.error e) = Outcome.error e := rfl

@[simp] theorem entryOutcome_ok (env : Env P D) (input : Input) (p : P) :
    entryOutcome env input (Except.ok p)
      = execOutcome env p (input.event.getD emptyDocument) := rfl

end PipelineLemmas

/-! ## Concrete sample instantiations

Small closed environments used by the witnesses: `P := Unit` (an opaque
artifact), `D := Unit` (opaque diagnostics). -/

/-- A compiler that always succeeds and a runtime that returns `null` and
leaves the document unchanged. -/
def sampleEnv : Env Unit Unit where
  compile := fun _ => Except.ok ⟨(), []⟩
  format := fun _ _ => "fmt"
  parseTZ := fun _ => none
  run := fun _ doc _ _ _ => Except.ok (Value.null, doc)

/-- A compiler that always fails. -/
def failEnv : Env Unit Unit where
  compile := fun _ => Except.error ()
  format := fun _ _ => "compile error"
  parseTZ := fun _ => none
  run := fun _ doc _ _ _ => Except.ok (Value.null, doc)

/-- A compiler that succeeds but a runtime that always fails. -/
def runErrEnv : Env Unit Unit where
  compile := fun _ => Except.ok ⟨(), []⟩
  format := fun _ _ => "fmt"
  parseTZ := fun _ => none
  run := fun _ _ _ _ _ => Except.error "runtime boom"

/-- A stateful environment whose runtime state counts invocations but never
influences the output. -/
def sampleREnv : REnv Unit Unit Nat where
  compile := fun _ => Except.ok ⟨(), []⟩
  format := fun _ _ => "fmt"
  parseTZ := fun _ => none
  initRuntime := 0
  runS := fun s _ doc _ _ _ => (s + 1, Except.ok (Value.null, doc))

/-- A sample request. -/
def sampleInput : Input := ⟨"p", none, none⟩

/-! ## The claims -/

/-- C1: the time zone used for execution is independent of `input.tz`:
`resolve` produces identical results for inputs differing only in `tz`, the
parsed string is the fixed `"tt"`, and a parse failure falls back to the
local time zone rather than failing the call. -/
theorem tz_field_ignored {P D : Type} (env : Env P D) (i1 i2 : Input)
    (cache : Cache P) (hp : i1.program = i2.program) (he : i1.event = i2.event)
    (hparse : env.parseTZ timeZoneString = none) :
    resolve env i1 cache = resolve env i2 cache
    ∧ resolveTimeZone env.parseTZ = TimeZone.local
    ∧ timeZoneString = "tt" := by
  refine ⟨?_, ?_, rfl⟩
  · unfold resolve
    rw [hp, he]
  · rw [resolveTimeZone, hparse]

/-- C1 witness: two inputs differing only in `tz` resolve identically under
the sample environment. -/
theorem tz_field_ignored_witness :
    resolve sampleEnv ⟨"p", none, some "America/New_York"⟩ (emptyCache Unit)
        = resolve sampleEnv ⟨"p", none, none⟩ (emptyCache Unit)
    ∧ resolveTimeZone sampleEnv.parseTZ = TimeZone.local
    ∧ timeZoneString = "tt" :=
  tz_field_ignored sampleEnv ⟨"p", none, some "America/New_York"⟩
    ⟨"p", none, none⟩ (emptyCache Unit) rfl rfl rfl

/-- C4: on a cache miss with successful compilation, the immediate re-read
under the same exclusive access finds the just-inserted entry (the new entry
is at the most-recently-used position, and eviction removes only from the
other end), so the `unreachable!()` branch is never taken: `resolve` never
returns `none` on a positive-capacity cache. -/
theorem reinsert_lookup_never_panics {P D : Type} :
    (∀ (c : Cache P) (k : String) (v : Except String P), 0 < c.cap →
        ((c.put k v).get k).1 = some v)
    ∧ (∀ (env : Env P D) (input : Input) (cache : Cache P), 0 < cache.cap →
        resolve env input cache ≠ none) := by
  constructor
  · intro c k v hcap
    rw [Lru.get_eq_some (lookupEntry_put_self c k v hcap)]
  · intro env input cache hcap h
    rcases hl : lookupOrCompile env.compile env.format input.program cache with
      _ | ⟨r, c1, n⟩
    · exact lookupOrCompile_ne_none hcap hl
    · rw [resolve_eq_of_lookup input hl] at h
      exact Option.some_ne_none _ h

/-- C4 witness: at a concrete environment and input. -/
theorem reinsert_lookup_never_panics_witness :
    (((emptyCache Unit).put "p" (Except.ok ())).get "p").1 = some (Except.ok ())
    ∧ resolve sampleEnv sampleInput (emptyCache Unit) ≠ none :=
  ⟨(reinsert_lookup_never_panics (D := Unit)).1 (emptyCache Unit) "p"
      (Except.ok ()) (by decide),
    (reinsert_lookup_never_panics).2 sampleEnv sampleInput (emptyCache Unit)
      (by decide)⟩

/-- C5: resolution starts from `input.event` (or the empty document), and a
successful execution with value `out` and mutated document `doc1` terminates
with `Outcome.success out doc1` — the output field is the expression value,
the result field the mutated document. -/
theorem success_outcome_shape {P D : Type} (env : Env P D) (input : Input)
    (cache : Cache P) (p : P) (c1 : Cache P) (n : Nat) (out doc1 : Value)
    (hl : lookupOrCompile env.compile env.format input.program cache
      = some (Except.ok p, c1, n))
    (hr : env.run p (input.event.getD emptyDocument) emptyDocument Secrets.new
        (resolveTimeZone env.parseTZ) = Except.ok (out, doc1)) :
    resolve env input cache = some (Outcome.success out doc1, c1, n) := by
  have h := resolve_eq_of_lookup input hl
  rw [entryOutcome_ok, execOutcome_eq_ok hr] at h
  exact h

/-- C5 witness: at the sample environment the outcome carries the runtime's
value and final document. -/
theorem success_outcome_shape_witness :
    resolve sampleEnv sampleInput (emptyCache Unit)
      = some (Outcome.success Value.null emptyDocument,
          ⟨[("p", Except.ok ())], cacheCapacity⟩, 1) :=
  success_outcome_shape sampleEnv sampleInput (emptyCache Unit) ()
    ⟨[("p", Except.ok ())], cacheCapacity⟩ 1 Value.null emptyDocument rfl rfl

/-- C8: a runtime-execution failure is surfaced as `Outcome.error` and never
writes to the cache: the final cache state is exactly the post-lookup state
`c1`, in which the entry for the program text is still the compiled
artifact. -/
theorem runtime_error_no_cache_write {P D : Type} (env : Env P D) (input : Input)
    (cache : Cache P) (p : P) (c1 : Cache P) (n : Nat) (err : String)
    (hcap : 0 < cache.cap)
    (hl : lookupOrCompile env.compile env.format input.program cache
      = some (Except.ok p, c1, n))
    (hr : env.run p (input.event.getD emptyDocument) emptyDocument Secrets.new
        (resolveTimeZone env.parseTZ) = Except.error err) :
    resolve env input cache = some (Outcome.error err, c1, n)
    ∧ c1.find? input.program = some (Except.ok p) := by
  have h := resolve_eq_of_lookup input hl
  rw [entryOutcome_ok, execOutcome_eq_error hr] at h
  exact ⟨h, (lookupOrCompile_post hcap hl).1⟩

/-- C8 witness: with an always-failing runtime, the cache still maps the
program text to its compiled artifact after the call. -/
theorem runtime_error_no_cache_write_witness :
    resolve runErrEnv sampleInput (emptyCache Unit)
      = some (Outcome.error "runtime boom",
          ⟨[("p", Except.ok ())], cacheCapacity⟩, 1)
    ∧ (⟨[("p", Except.ok ())], cacheCapacity⟩ : Cache Unit).find? "p"
        = some (Except.ok ()) :=
  runtime_error_no_cache_write runErrEnv sampleInput (emptyCache Unit) ()
    ⟨[("p", Except.ok ())], cacheCapacity⟩ 1 "runtime boom" (by decide) rfl rfl

/-- A compiler that fails exactly on the program text `"p"`. -/
def mixedEnv : Env Unit Unit where
  compile := fun s => if s = "p" then Except.error () else Except.ok ⟨(), []⟩
  format := fun _ _ => "compile error"
  parseTZ := fun _ => none
  run := fun _ doc _ _ _ => Except.ok (Value.null, doc)

/-- 399 cached artifacts for programs other than `"p"` (each the canonical
entry `mixedEnv` would store for its key). -/
def fillerEntries : List (String × Except String Unit) :=
  (List.range 399).map (fun i => (String.append "q" (toString i), Except.ok ()))

/-- A full (400-entry) cache state in which the negative entry for `"p"` is
the least recently used one. -/
def fullCache : Cache Unit :=
  ⟨fillerEntries ++ [("p", Except.error "compile error")], cacheCapacity⟩

set_option maxRecDepth 10000 in
/-- C3 counterexample: the negative entry for `"p"` is stored in the cache,
yet after one unrelated call (which evicts it, the cache being at capacity
with the entry least recently used) the next call with the identical program
text invokes the compiler again (compile count 1, not 0) — it does return the
same error message. -/
theorem negative_entry_recompiled_counterexample :
    fullCache.find? "p" = some (Except.error "compile error")
    ∧ (∃ o1 c1, resolve mixedEnv ⟨"x", none, none⟩ fullCache = some (o1, c1, 1)
        ∧ ∃ o2 c2, resolve mixedEnv ⟨"p", none, none⟩ c1 = some (o2, c2, 1)
          ∧ o2 = Outcome.error "compile error") :=
  ⟨rfl, ⟨_, _, rfl, _, _, rfl, rfl⟩⟩

/-- C3 (amended): a failing compilation stores the formatted diagnostics as a
negative entry (no artifact); any subsequent call with identical program text
made while that entry is still cached — in particular the immediately
following one — returns the same error message with zero compiler
invocations, and leaves the negative entry in place.  (The entry can be
evicted by capacity pressure, after which an identical call recompiles and
re-stores the same message.) -/
theorem negative_caching_amended {P D : Type} (env : Env P D) (prog : String)
    (ev : Option Value) (tzf : Option String) (cache : Cache P) (d : D)
    (hc : env.compile prog = Except.error d) (hmiss : cache.find? prog = none)
    (hcap : 0 < cache.cap) :
    ∃ c1, resolve env ⟨prog, ev, tzf⟩ cache
        = some (Outcome.error (env.format prog d), c1, 1)
      ∧ c1.find? prog = some (Except.error (env.format prog d))
      ∧ ∀ input' : Input, input'.program = prog →
          ∃ c2, resolve env input' c1
              = some (Outcome.error (env.format prog d), c2, 0)
            ∧ c2.find? prog = some (Except.error (env.format prog d)) := by
  have hl1 := lookupOrCompile_miss_error env.format hmiss hc
  have h1 := resolve_eq_of_lookup ⟨prog, ev, tzf⟩ hl1
  rw [entryOutcome_error] at h1
  have hfind : (cache.put prog (Except.error (env.format prog d))).find? prog
      = some (Except.error (env.format prog d)) :=
    Lru.find?_put_self _ _ _ hcap
  refine ⟨_, h1, hfind, ?_⟩
  intro input' hp'
  have hfind' : (cache.put prog (Except.error (env.format prog d))).find?
      input'.program = some (Except.error (env.format prog d)) := by
    rw [hp']
    exact hfind
  have hl2 := lookupOrCompile_hit env.compile env.format hfind'
  have h2 := resolve_eq_of_lookup input' hl2
  rw [entryOutcome_error] at h2
  refine ⟨_, h2, ?_⟩
  rw [Lru.find?]
  dsimp only
  rw [hp', lookupEntry_cons, if_pos rfl]

/-- C3 (amended) witness: with the always-failing compiler on the empty
cache. -/
theorem negative_caching_amended_witness :
    ∃ c1, resolve failEnv ⟨"p", none, none⟩ (emptyCache Unit)
        = some (Outcome.error "compile error", c1, 1)
      ∧ c1.find? "p" = some (Except.error "compile error")
      ∧ ∀ input' : Input, input'.program = "p" →
          ∃ c2, resolve failEnv input' c1
              = some (Outcome.error "compile error", c2, 0)
            ∧ c2.find? "p" = some (Except.error "compile error") :=
  negative_caching_amended failEnv "p" none none (emptyCache Unit) () rfl rfl
    (by decide)

/-- Any `execute` in a trace of the form
`lockAcquire :: mid ++ [lockRelease]` lies inside the locked section. -/
theorem executionInsideLock_of_decomp {t mid : List Ev}
    (ht : t = Ev.lockAcquire :: mid ++ [Ev.lockRelease])
    (hm : Ev.execute ∈ mid) : executionInsideLock t := by
  obtain ⟨j, hj⟩ := List.mem_iff_get?.mp hm
  have hjlt : j < mid.length := by
    rcases List.get?_eq_some.mp hj with ⟨h, _⟩
    exact h
  refine ⟨0, j + 1, mid.length + 1, Nat.succ_pos j, Nat.succ_lt_succ hjlt,
    ?_, ?_, ?_⟩
  · rw [ht]
    rfl
  · rw [ht]
    show (mid ++ [Ev.lockRelease]).get? j = some Ev.execute
    rw [List.get?_append hjlt]
    exact hj
  · rw [ht]
    show (mid ++ [Ev.lockRelease]).get? mid.length = some Ev.lockRelease
    rw [List.get?_append_right (le_refl _)]
    simp

/-- C2 counterexample: at a concrete call the execution event happens while
the cache lock is held — the `MutexGuard` `cache_ref` is dropped only at
function exit, after the `RUNTIME.with` execution block, so execution does
not run outside the cache lock. -/
theorem execution_outside_lock_counterexample :
    Ev.execute ∈ resolveTrace sampleEnv sampleInput (emptyCache Unit)
    ∧ executionInsideLock (resolveTrace sampleEnv sampleInput (emptyCache Unit)) :=
  ⟨by decide, ⟨0, 5, 6, by decide, by decide, rfl, rfl, rfl⟩⟩

/-- C2 (amended): the cache's exclusive critical section covers the whole
resolution call, not only the lookup/insert sequence: every trace acquires
the lock first, releases it only at function exit, and any execution event
occurs strictly between the two — so two concurrent calls' executions ARE
serialized by the cache's mutual exclusion. -/
theorem lock_covers_execution {P D : Type} (env : Env P D) (input : Input)
    (cache : Cache P) :
    ∃ mid, resolveTrace env input cache
        = Ev.lockAcquire :: mid ++ [Ev.lockRelease]
      ∧ Ev.lockAcquire ∉ mid ∧ Ev.lockRelease ∉ mid
      ∧ (Ev.execute ∈ resolveTrace env input cache →
          executionInsideLock (resolveTrace env input cache)) := by
  unfold resolveTrace
  split
  · exact ⟨[Ev.cacheGet, Ev.execute], rfl, by decide, by decide,
      fun _ => ⟨0, 2, 3, by decide, by decide, rfl, rfl, rfl⟩⟩
  · exact ⟨[Ev.cacheGet], rfl, by decide, by decide,
      fun hmem => absurd hmem (by decide)⟩
  · split
    · split
      · exact ⟨[Ev.cacheGet, Ev.compilerInvoke, Ev.cachePut, Ev.cacheGet,
          Ev.execute], rfl, by decide, by decide,
          fun _ => ⟨0, 5, 6, by decide, by decide, rfl, rfl, rfl⟩⟩
      · exact ⟨[Ev.cacheGet, Ev.compilerInvoke, Ev.cachePut, Ev.cacheGet], rfl,
          by decide, by decide, fun hmem => absurd hmem (by decide)⟩
      · exact ⟨[Ev.cacheGet, Ev.compilerInvoke, Ev.cachePut, Ev.cacheGet], rfl,
          by decide, by decide, fun hmem => absurd hmem (by decide)⟩
    · exact ⟨[Ev.cacheGet, Ev.compilerInvoke, Ev.cachePut], rfl, by decide,
        by decide, fun hmem => absurd hmem (by decide)⟩

/-- C2 (amended) witness: the decomposition at a concrete call. -/
theorem lock_covers_execution_witness :
    ∃ mid, resolveTrace sampleEnv sampleInput (emptyCache Unit)
        = Ev.lockAcquire :: mid ++ [Ev.lockRelease]
      ∧ Ev.lockAcquire ∉ mid ∧ Ev.lockRelease ∉ mid
      ∧ (Ev.execute ∈ resolveTrace sampleEnv sampleInput (emptyCache Unit) →
          executionInsideLock
            (resolveTrace sampleEnv sampleInput (emptyCache Unit))) :=
  lock_covers_execution sampleEnv sampleInput (emptyCache Unit)

/-- An abstract cache operation: the two operations `resolve` performs on the
`CACHE` static. -/
inductive CacheOp (V : Type)
  | get (k : String)
  | put (k : String) (v : V)

/-- Apply one cache operation. -/
def applyOp {V : Type} (c : Lru String V) : CacheOp V → Lru String V
  | CacheOp.get k => (c.get k).2
  | CacheOp.put k v => c.put k v

/-- Apply a sequence of cache operations. -/
def applyOps {V : Type} (c : Lru String V) (ops : List (CacheOp V)) :
    Lru String V :=
  ops.foldl applyOp c

theorem applyOp_wf {V : Type} {c : Lru String V} (h : c.Wf) (op : CacheOp V) :
    (applyOp c op).Wf := by
  cases op with
  | get k => exact h.get k
  | put k v => exact h.put k v

theorem applyOp_cap {V : Type} (c : Lru String V) (op : CacheOp V) :
    (applyOp c op).cap = c.cap := by
  cases op with
  | get k => exact Lru.cap_get c k
  | put k v => exact Lru.cap_put c k v

theorem applyOps_wf {V : Type} {c : Lru String V} (h : c.Wf)
    (ops : List (CacheOp V)) : (applyOps c ops).Wf := by
  induction ops generalizing c with
  | nil => exact h
  | cons op rest ih => exact ih (applyOp_wf h op)

theorem applyOps_cap {V : Type} (c : Lru String V) (ops : List (CacheOp V)) :
    (applyOps c ops).cap = c.cap := by
  induction ops generalizing c with
  | nil => rfl
  | cons op rest ih => exact (ih (applyOp c op)).trans (applyOp_cap c op)

/-- A `put` of a fresh key into a full cache evicts exactly the
least-recently-used entry: the new key list is the new key followed by all
old keys except the last. -/
theorem put_evicts_lru {V : Type} (c : Lru String V) (k : String) (v : V)
    (hnodup : c.keys.Nodup) (hfull : c.entries.length = c.cap)
    (hcap : 0 < c.cap) (hnew : c.find? k = none) :
    (c.put k v).keys = k :: c.keys.dropLast := by
  have hnk : k ∉ c.entries.map Prod.fst := (lookupEntry_eq_none_iff _ _).mp hnew
  rw [Lru.put_def, removeKey_eq_of_not_mem _ _ hnk,
    if_pos (by rw [List.length_cons]; omega)]
  obtain ⟨m, hm⟩ : ∃ m, c.cap = m + 1 := ⟨c.cap - 1, by omega⟩
  rw [Lru.keys]
  dsimp only
  rw [hm, List.take_succ_cons, List.map_cons, List.map_take]
  congr 1
  rw [Lru.keys, List.dropLast_eq_take, List.length_map, hfull, hm]
  simp

/-- `get` never removes a key (hit or miss). -/
theorem get_preserves_keys {V : Type} (c : Lru String V) (k k' : String) :
    k' ∈ ((c.get k).2).keys ↔ k' ∈ c.keys := by
  rcases h : lookupEntry k c.entries with _ | v
  · rw [Lru.get_eq_none h]
  · rw [Lru.get_eq_some h]
    have hk : k ∈ c.entries.map Prod.fst := by
      rw [← lookupEntry_isSome_iff, h]
      rfl
    show k' ∈ ((k, v) :: removeKey k c.entries).map Prod.fst
      ↔ k' ∈ c.entries.map Prod.fst
    rw [List.map_cons, removeKey_keys]
    by_cases hk' : k' = k
    · subst hk'
      simp [hk]
    · simp [hk', List.mem_filter]

/-- `put` never removes a key except, when a fresh key is inserted into a
full cache, the least-recently-used one. -/
theorem put_removes_only_lru {V : Type} (c : Lru String V) (k k' : String)
    (v : V) (hnodup : c.keys.Nodup) (hlen : c.entries.length ≤ c.cap)
    (hk' : k' ∈ c.keys) :
    k' ∈ (c.put k v).keys
    ∨ (c.entries.length = c.cap ∧ c.find? k = none
        ∧ c.keys.getLast? = some k') := by
  by_cases hmem : k ∈ c.entries.map Prod.fst
  · left
    have hlr := length_removeKey_of_mem k c.entries hnodup hmem
    rw [Lru.put_def, if_neg (by rw [List.length_cons]; omega)]
    show k' ∈ ((k, v) :: removeKey k c.entries).map Prod.fst
    rw [List.map_cons, removeKey_keys]
    by_cases hk'k : k' = k
    · exact hk'k ▸ List.mem_cons_self _ _
    · exact List.mem_cons_of_mem _ (List.mem_filter.mpr ⟨hk', by simp [hk'k]⟩)
  · have hnone : c.find? k = none := (lookupEntry_eq_none_iff _ _).mpr hmem
    have hrm : removeKey k c.entries = c.entries :=
      removeKey_eq_of_not_mem _ _ hmem
    rcases Nat.lt_or_ge c.entries.length c.cap with hlt | hge
    · left
      rw [Lru.put_def, hrm, if_neg (by rw [List.length_cons]; omega)]
      exact List.mem_cons_of_mem _ hk'
    · have hfull : c.entries.length = c.cap := le_antisymm hlen hge
      have hcap : 0 < c.cap := by
        rcases Nat.eq_zero_or_pos c.cap with h0 | h
        · rw [h0] at hfull
          refine absurd hk' ?_
          rw [Lru.keys, List.length_eq_zero.mp hfull]
          exact List.not_mem_nil k'
        · exact h
      have hkeys := put_evicts_lru c k v hnodup hfull hcap hnone
      by_cases hd : k' ∈ c.keys.dropLast
      · left
        rw [hkeys]
        exact List.mem_cons_of_mem _ hd
      · right
        refine ⟨hfull, hnone, ?_⟩
        have hne : c.keys ≠ [] := by
          intro h0
          rw [h0] at hk'
          cases hk'
        have hk2 : k' ∈ c.keys.dropLast ++ [c.keys.getLast hne] := by
          rw [List.dropLast_append_getLast hne]
          exact hk'
        rcases List.mem_append.mp hk2 with h1 | h1
        · exact absurd h1 hd
        · rw [List.getLast?_eq_getLast_of_ne_nil hne,
            List.mem_singleton.mp h1]

/-- C6: after every sequence of cache operations starting from the `CACHE`
static, the cache holds at most 400 entries and at most one entry per unique
program text; an insert into a full cache evicts exactly the
least-recently-used entry; and entries are removed only by such
capacity-driven eviction (`get` never removes a key, and `put` removes at
most the LRU key and only in the full-and-fresh-key case). -/
theorem cache_bounded_lru_unique {V : Type} :
    (∀ ops : List (CacheOp V),
        (applyOps (initialCache V) ops).entries.length ≤ 400
        ∧ (applyOps (initialCache V) ops).keys.Nodup)
    ∧ (∀ (c : Lru String V) (k : String) (v : V), c.keys.Nodup →
        c.entries.length = c.cap → 0 < c.cap → c.find? k = none →
        (c.put k v).keys = k :: c.keys.dropLast)
    ∧ (∀ (c : Lru String V) (k k' : String),
        k' ∈ ((c.get k).2).keys ↔ k' ∈ c.keys)
    ∧ (∀ (c : Lru String V) (k k' : String) (v : V), c.keys.Nodup →
        c.entries.length ≤ c.cap → k' ∈ c.keys →
        k' ∈ (c.put k v).keys
        ∨ (c.entries.length = c.cap ∧ c.find? k = none
            ∧ c.keys.getLast? = some k')) := by
  refine ⟨fun ops => ?_, put_evicts_lru, get_preserves_keys,
    put_removes_only_lru⟩
  have hwf := applyOps_wf (Lru.Wf.initial V) ops
  have hcap := applyOps_cap (initialCache V) ops
  refine ⟨?_, hwf.1⟩
  have := hwf.2
  rw [hcap] at this
  exact this

/-- C6 witness: a two-operation history stays within bounds, and on a
one-slot cache a fresh insert evicts exactly the stored key. -/
theorem cache_bounded_lru_unique_witness :
    ((applyOps (initialCache Unit)
        [CacheOp.put "a" (), CacheOp.get "a"]).entries.length ≤ 400
      ∧ (applyOps (initialCache Unit)
          [CacheOp.put "a" (), CacheOp.get "a"]).keys.Nodup)
    ∧ ((⟨[("a", ())], 1⟩ : Lru String Unit).put "b" ()).keys
        = "b" :: (⟨[("a", ())], 1⟩ : Lru String Unit).keys.dropLast
    ∧ ("a" ∈ (((⟨[("a", ())], 1⟩ : Lru String Unit).get "a").2).keys
        ↔ "a" ∈ (⟨[("a", ())], 1⟩ : Lru String Unit).keys)
    ∧ ("a" ∈ ((⟨[("a", ())], 1⟩ : Lru String Unit).put "b" ()).keys
        ∨ ((⟨[("a", ())], 1⟩ : Lru String Unit).entries.length = 1
            ∧ (⟨[("a", ())], 1⟩ : Lru String Unit).find? "b" = none
            ∧ (⟨[("a", ())], 1⟩ : Lru String Unit).keys.getLast?
                = some "a")) :=
  ⟨(cache_bounded_lru_unique (V := Unit)).1
      [CacheOp.put "a" (), CacheOp.get "a"],
    (cache_bounded_lru_unique (V := Unit)).2.1 ⟨[("a", ())], 1⟩ "b" ()
      (by decide) rfl (by decide) rfl,
    (cache_bounded_lru_unique (V := Unit)).2.2.1 ⟨[("a", ())], 1⟩ "a" "a",
    (cache_bounded_lru_unique (V := Unit)).2.2.2 ⟨[("a", ())], 1⟩ "b" "a" ()
      (by decide) (by decide) (by decide)⟩

/-- C9: compilation is idempotent and referentially transparent in the
program text: on a consistent cache, resolving the same input a second time
invokes the compiler zero times and produces the same outcome as the first
call, which is the outcome a fresh compilation (resolution from the empty
cache) produces. -/
theorem idempotent_compilation {P D : Type} (env : Env P D) (input : Input)
    (cache : Cache P) (o1 o2 : Outcome) (c1 c2 : Cache P) (n1 n2 : Nat)
    (hcap : 0 < cache.cap)
    (hcons : CacheConsistent env.compile env.format cache)
    (h1 : resolve env input cache = some (o1, c1, n1))
    (h2 : resolve env input c1 = some (o2, c2, n2)) :
    n2 = 0 ∧ o2 = o1 ∧ o1 = canonicalOutcome env input
    ∧ ∃ cF nF, resolve env input (emptyCache P)
        = some (canonicalOutcome env input, cF, nF) := by
  obtain ⟨c1', n1', hl1, hcons1⟩ :=
    lookupOrCompile_consistent input.program hcap hcons
  have h1' := resolve_eq_of_lookup input hl1
  rw [h1] at h1'
  injection h1' with h1'
  injection h1' with ho1 h1'
  injection h1' with hc1 hn1
  subst hc1
  have hfind : c1.find? input.program
      = some (compiledEntry env.compile env.format input.program) :=
    (lookupOrCompile_post hcap hl1).1
  have hl2 := lookupOrCompile_hit env.compile env.format hfind
  have h2' := resolve_eq_of_lookup input hl2
  rw [h2] at h2'
  injection h2' with h2'
  injection h2' with ho2 h2'
  injection h2' with hc2 hn2
  have hconsE : CacheConsistent env.compile env.format (emptyCache P) :=
    fun p hp => absurd hp (List.not_mem_nil p)
  have hcapE : 0 < (emptyCache P).cap := by
    norm_num [emptyCache, initialCache, cacheCapacity]
  obtain ⟨cF, nF, hlF, hconsF⟩ :=
    lookupOrCompile_consistent input.program hcapE hconsE
  refine ⟨hn2, ?_, ho1, cF, nF, resolve_eq_of_lookup input hlF⟩
  rw [ho1, ho2]

/-- C9 witness: two consecutive calls on the empty cache under the sample
environment; the second compiles nothing and both outcomes are the canonical
one. -/
theorem idempotent_compilation_witness :
    (0 : Nat) = 0
    ∧ (Outcome.success Value.null emptyDocument : Outcome)
        = Outcome.success Value.null emptyDocument
    ∧ Outcome.success Value.null emptyDocument
        = canonicalOutcome sampleEnv sampleInput
    ∧ ∃ cF nF, resolve sampleEnv sampleInput (emptyCache Unit)
        = some (canonicalOutcome sampleEnv sampleInput, cF, nF) :=
  idempotent_compilation sampleEnv sampleInput (emptyCache Unit)
    (Outcome.success Value.null emptyDocument)
    (Outcome.success Value.null emptyDocument)
    ⟨[("p", Except.ok ())], cacheCapacity⟩
    ⟨[("p", Except.ok ())], cacheCapacity⟩ 1 0
    (by decide) (fun p hp => absurd hp (List.not_mem_nil p)) rfl rfl

/-- C7: reuse of the per-worker execution context is observationally
invisible, given that the external runtime's result does not depend on the
carried state (the stateless contract under which the orchestrator invokes
it): the outcome, cache state and compile count of a call started from any
reused worker state equal those of the same call on a freshly created
context. -/
theorem context_reuse_invisible {P D S : Type} (e : REnv P D S)
    (hrun : ∀ (s s' : S) (p : P) (doc m : Value) (sec : Secrets) (tz : TimeZone),
      (e.runS s p doc m sec tz).2 = (e.runS s' p doc m sec tz).2)
    (input : Input) (cache : Cache P) (s : S) :
    Option.map (fun x => (x.1, x.2.1, x.2.2.1)) (resolveS e input cache s)
      = Option.map (fun x => (x.1, x.2.1, x.2.2.1))
          (resolveS e input cache e.initRuntime) := by
  unfold resolveS
  rcases hl : lookupOrCompile e.compile e.format input.program cache with
    _ | ⟨r, c1, n⟩
  · rfl
  · cases r with
    | error err => rfl
    | ok p =>
        dsimp only
        rcases hr1 : e.runS s p (input.event.getD emptyDocument) emptyDocument
            Secrets.new (resolveTimeZone e.parseTZ) with ⟨s1, r1⟩
        rcases hr2 : e.runS e.initRuntime p (input.event.getD emptyDocument)
            emptyDocument Secrets.new (resolveTimeZone e.parseTZ) with ⟨s2, r2⟩
        have heq : r1 = r2 := by
          have h := hrun s e.initRuntime p (input.event.getD emptyDocument)
            emptyDocument Secrets.new (resolveTimeZone e.parseTZ)
          rw [hr1, hr2] at h
          exact h
        rw [← heq]
        cases r1 with
        | error err => rfl
        | ok pr =>
            obtain ⟨out, doc1⟩ := pr
            rfl

/-- C7 witness: a state-counting but state-insensitive runtime gives the same
observable result from worker state 7 as from a fresh context. -/
theorem context_reuse_invisible_witness :
    Option.map (fun x => (x.1, x.2.1, x.2.2.1))
        (resolveS sampleREnv sampleInput (emptyCache Unit) 7)
      = Option.map (fun x => (x.1, x.2.1, x.2.2.1))
          (resolveS sampleREnv sampleInput (emptyCache Unit)
            sampleREnv.initRuntime) :=
  context_reuse_invisible sampleREnv (fun _ _ _ _ _ _ _ => rfl) sampleInput
    (emptyCache Unit) 7

/-- C10: resolution is deterministic: two runs from equal cache and
execution-context states on byte-identical inputs (same program, event and
tz) in the same environment produce equal results — outcome, cache state,
compile count and runtime state. -/
theorem resolution_deterministic {P D S : Type} (e : REnv P D S) (i1 i2 : Input)
    (c1 c2 : Cache P) (s1 s2 : S) (hp : i1.program = i2.program)
    (he : i1.event = i2.event) (ht : i1.tz = i2.tz) (hc : c1 = c2)
    (hs : s1 = s2) :
    resolveS e i1 c1 s1 = resolveS e i2 c2 s2 := by
  obtain ⟨p1, e1, t1⟩ := i1
  obtain ⟨p2, e2, t2⟩ := i2
  dsimp only at hp he ht
  subst hp
  subst he
  subst ht
  subst hc
  subst hs
  rfl

/-- C10 witness: at a concrete environment, input and state. -/
theorem resolution_deterministic_witness :
    resolveS sampleREnv ⟨"p", none, none⟩ (emptyCache Unit) 0
      = resolveS sampleREnv ⟨"p", none, none⟩ (emptyCache Unit) 0 :=
  resolution_deterministic sampleREnv ⟨"p", none, none⟩ ⟨"p", none, none⟩
    (emptyCache Unit) (emptyCache Unit) 0 0 rfl rfl rfl rfl rfl

end VrlWeb
